import Mathlib

set_option maxRecDepth 4000

/-!
Verification of `solrad/climate/pvgis_tmy.py`.

The development shallowly embeds the two functions of the module:

* `get_pvgis_tmy_dataframe` — fetches a Typical Meteorological Year (TMY)
  table from the external PVGIS source (via pvlib), converts its UTC hourly
  index to local time, sorts by (month, day, hour) and renames the columns.
  The remote response and the pandas time-zone machinery are external
  collaborators; they are modelled from the spec where noted.

* `climate_data_from_pvgis_tmy_dataframe` — for each (year, month, day)
  group of target timestamps, interpolates every TMY column over the 25
  nodes x = 0..24 (the 24 hourly values of the lookup day plus a closing
  value for hour 24 resolved by a fallback chain) and evaluates the
  interpolant at each timestamp's fractional hour.

Machine reals (numpy/pandas floats) are modelled by `ℚ`; Python exceptions
by `Except`.
-/

/-- Days per month of the non-leap calendar used by the TMY table
(spec §3: "exactly one row exists for every valid (month, day, hour)
triple in a non-leap calendar"). -/
def daysInMonth : ℕ → ℕ
  | 1 => 31 | 2 => 28 | 3 => 31 | 4 => 30 | 5 => 31 | 6 => 30
  | 7 => 31 | 8 => 31 | 9 => 30 | 10 => 31 | 11 => 30 | 12 => 31
  | _ => 0

/-- A (month, day, hour) key is valid for the non-leap TMY calendar. -/
def ValidKey : ℕ × ℕ × ℕ → Prop := fun k =>
  1 ≤ k.1 ∧ k.1 ≤ 12 ∧ 1 ≤ k.2.1 ∧ k.2.1 ≤ daysInMonth k.1 ∧ k.2.2 ≤ 23

instance : DecidablePred ValidKey := fun k => by unfold ValidKey; infer_instance

/-- One element of a `pandas.DatetimeIndex`, restricted to the fields the
source reads (`.hour`, `.minute`, `.second`). -/
structure Timestamp where
  hour : ℕ
  minute : ℕ
  second : ℕ
deriving DecidableEq

/-- The field bounds a real `pandas.DatetimeIndex` guarantees. -/
def Timestamp.Valid (t : Timestamp) : Prop :=
  t.hour < 24 ∧ t.minute < 60 ∧ t.second < 60

instance (t : Timestamp) : Decidable t.Valid := by unfold Timestamp.Valid; infer_instance

/-- Fractional hour of a timestamp:
`hms_float = hour + minute/60 + second/3600` (source lines 236-238). -/
def hmsFloat (t : Timestamp) : ℚ :=
  (t.hour : ℚ) + (t.minute : ℚ) / 60 + (t.second : ℚ) / 3600

/-- The time-of-day triple of a timestamp. -/
def timeOfDay (t : Timestamp) : ℕ × ℕ × ℕ := (t.hour, t.minute, t.second)

/-- The TMY DataFrame: a set of rows keyed by (month, day, hour) holding one
rational per column name.  `present` says which keys have a row, `val` gives
the cell values of present rows (reads of absent keys are never performed by
the guarded code paths), `cols` is the ordered column list.  Rows are stored
sorted by (month, day, hour), which the model realises by always scanning
hours in increasing order. -/
structure TMY where
  present : ℕ × ℕ × ℕ → Bool
  val : ℕ × ℕ × ℕ → String → ℚ
  cols : List String

/-- A TMY table is well formed when it has exactly one row per valid
non-leap (month, day, hour) triple (spec §3 invariant). -/
def WellFormed (tmy : TMY) : Prop := ∀ k, tmy.present k = true ↔ ValidKey k

/-- The hours of day (m, d) that have a row, in index (= ascending) order. -/
def dayHours (tmy : TMY) (m d : ℕ) : List ℕ :=
  (List.range 24).filter (fun h => tmy.present (m, d, h))

/-- `tmy_data.loc[(month, day_), col]` (source line 252): the column values of
all rows of the partial key (m, d) in ascending hour order; a `KeyError`
(`none`) when no row matches. -/
def locDayCol (tmy : TMY) (m d : ℕ) (col : String) : Option (List ℚ) :=
  if dayHours tmy m d = [] then none
  else some ((dayHours tmy m d).map (fun h => tmy.val (m, d, h) col))

/-- The lookup day: February 29 is replaced by 28, every other date is used
unchanged (source lines 246-248). -/
def lookupDay (month day : ℕ) : ℕ := if month = 2 ∧ day = 29 then 28 else day

/-- The closing interpolation node for x = 24, resolved by the nested
try/except chain of source lines 254-266: hour 0 of (m, d+1), else hour 0 of
(m+1, 1), else hour 0 of (1, 1); `none` when all three lookups fail. -/
def closingNode (tmy : TMY) (m d : ℕ) (col : String) : Option ℚ :=
  if tmy.present (m, d + 1, 0) then some (tmy.val (m, d + 1, 0) col)
  else if tmy.present (m + 1, 1, 0) then some (tmy.val (m + 1, 1, 0) col)
  else if tmy.present (1, 1, 0) then some (tmy.val (1, 1, 0) col)
  else none

/-- First value among an ordered list of candidate keys that is present in
the table (the spec's reading of the fallback chain, §4.2 step 3 / §9). -/
def firstPresent (tmy : TMY) (col : String) : List (ℕ × ℕ × ℕ) → Option ℚ
  | [] => none
  | k :: ks => if tmy.present k then some (tmy.val k col) else firstPresent tmy col ks

/-! ### Interpolation methods

`scipy.interpolate.interp1d(x_interp, y_interp, kind=interp_method)` with
`x_interp = np.arange(25)` (source lines 232, 268).  scipy is an external
dependency; the three interpolants are modelled from the spec (§4.2 step 4:
"fit a 1-D interpolant over the 25 nodes (x = 0..24) using the requested
method (linear, quadratic, or cubic spline semantics)").  Linear is the
exact piecewise-linear interpolant; quadratic is the C¹ piecewise-quadratic
interpolating spline; cubic is the natural C² cubic interpolating spline
(solved by the Thomas algorithm).  All three pass through every node, which
is the property the spec relies on. -/

/-- Node access, clamped to the last node (only indices ≤ 24 are used). -/
def nodeAt (y : Fin 25 → ℚ) (i : ℕ) : ℚ := y ⟨min i 24, by omega⟩

/-- Index of the interpolation segment containing x (the last segment,
x ∈ [23, 24], is used for x = 24). -/
def segIndex (x : ℚ) : ℕ := min 23 (Int.toNat ⌊x⌋)

/-- Piecewise-linear interpolant through the 25 nodes. -/
def evalLinear (y : Fin 25 → ℚ) (x : ℚ) : ℚ :=
  let i := segIndex x
  nodeAt y i + (nodeAt y (i + 1) - nodeAt y i) * (x - (i : ℚ))

/-- Slopes of the C¹ piecewise-quadratic interpolating spline:
`b 0 = y₁ - y₀` and `b (i+1) = 2 (y_(i+2) - y_(i+1)) - b i`. -/
def quadB (y : Fin 25 → ℚ) : ℕ → ℚ
  | 0 => nodeAt y 1 - nodeAt y 0
  | i + 1 => 2 * (nodeAt y (i + 2) - nodeAt y (i + 1)) - quadB y i

/-- Piecewise-quadratic interpolating spline through the 25 nodes. -/
def evalQuadratic (y : Fin 25 → ℚ) (x : ℚ) : ℚ :=
  let i := segIndex x
  let t := x - (i : ℚ)
  let b := quadB y i
  let c := nodeAt y (i + 1) - nodeAt y i - b
  nodeAt y i + b * t + c * t ^ 2

/-- Right-hand side of the natural-cubic-spline moment system
`M_(i-1) + 4 M_i + M_(i+1) = 6 (y_(i-1) - 2 y_i + y_(i+1))`. -/
def cubicD (y : Fin 25 → ℚ) (i : ℕ) : ℚ :=
  6 * (nodeAt y (i - 1) - 2 * nodeAt y i + nodeAt y (i + 1))

/-- Thomas-algorithm forward sweep, superdiagonal coefficients. -/
def cubicCp (y : Fin 25 → ℚ) : ℕ → ℚ
  | 0 => 0
  | 1 => 1 / 4
  | i + 2 => 1 / (4 - cubicCp y (i + 1))

/-- Thomas-algorithm forward sweep, right-hand sides. -/
def cubicDp (y : Fin 25 → ℚ) : ℕ → ℚ
  | 0 => 0
  | 1 => cubicD y 1 / 4
  | i + 2 => (cubicD y (i + 2) - cubicDp y (i + 1)) / (4 - cubicCp y (i + 1))

/-- Thomas-algorithm back substitution; `cubicBack y j` is the moment
`M_(24-j)` (so `cubicBack y 0 = M₂₄ = 0`). -/
def cubicBack (y : Fin 25 → ℚ) : ℕ → ℚ
  | 0 => 0
  | j + 1 => cubicDp y (23 - j) - cubicCp y (23 - j) * cubicBack y j

/-- Second derivative (moment) of the natural cubic spline at node i. -/
def cubicM (y : Fin 25 → ℚ) (i : ℕ) : ℚ :=
  if i = 0 then 0 else if 24 ≤ i then 0 else cubicBack y (24 - i)

/-- Natural cubic interpolating spline through the 25 nodes. -/
def evalCubic (y : Fin 25 → ℚ) (x : ℚ) : ℚ :=
  let i := segIndex x
  let t := x - (i : ℚ)
  let m0 := cubicM y i
  let m1 := cubicM y (i + 1)
  m0 * (1 - t) ^ 3 / 6 + m1 * t ^ 3 / 6 +
    (nodeAt y i - m0 / 6) * (1 - t) + (nodeAt y (i + 1) - m1 / 6) * t

/-- The `interp_method` argument: one of 'linear', 'quadratic', 'cubic'. -/
inductive InterpMethod where
  | linear
  | quadratic
  | cubic
deriving DecidableEq

/-- `interp1d(np.arange(25), y, kind=method)` evaluated at x. -/
def evalInterp : InterpMethod → (Fin 25 → ℚ) → ℚ → ℚ
  | InterpMethod.linear => evalLinear
  | InterpMethod.quadratic => evalQuadratic
  | InterpMethod.cubic => evalCubic

/-! ### The interpolation pipeline of `climate_data_from_pvgis_tmy_dataframe` -/

/-- The Python exceptions the interpolation body can raise: an uncaught
`KeyError` from `tmy_data.loc[(month, day_), col]` (line 252), the re-raised
`KeyError` when all three closing-node lookups fail (line 266), and scipy's
`ValueError` when `y_interp` does not have the 25 entries `x_interp` has. -/
inductive PyError where
  | keyErrorDay
  | missingClosingNode
  | valueErrorLength
deriving DecidableEq

/-- Left-to-right effectful map modelling a Python `for` loop in which an
uncaught exception aborts the whole call. -/
def exceptMap {α β ε : Type} (f : α → Except ε β) : List α → Except ε (List β)
  | [] => Except.ok []
  | a :: as =>
    match f a with
    | Except.error e => Except.error e
    | Except.ok b =>
      match exceptMap f as with
      | Except.error e => Except.error e
      | Except.ok bs => Except.ok (b :: bs)

/-- Body of the `for col in tmy_data.columns` loop (source lines 251-269):
build the 25 interpolation nodes for column `col` of lookup day (m, d) and
evaluate the interpolant at every fractional hour of `hms`. -/
def interpColumn (method : InterpMethod) (tmy : TMY) (m d : ℕ) (col : String)
    (hms : List ℚ) : Except PyError (List ℚ) :=
  match locDayCol tmy m d col with
  | none => Except.error PyError.keyErrorDay
  | some base =>
    match closingNode tmy m d col with
    | none => Except.error PyError.missingClosingNode
    | some c =>
      let ys := base ++ [c]
      if h : ys.length = 25 then
        Except.ok (hms.map (evalInterp method (fun i => ys.get (Fin.cast h.symm i))))
      else Except.error PyError.valueErrorLength

/-- One output DataFrame: indexed by the group's timestamps, with the
`hms_float` column followed by one value list per TMY column. -/
structure DayTable where
  index : List Timestamp
  hms_float : List ℚ
  cols : List (String × List ℚ)
deriving DecidableEq

/-- Column count of the DataFrame built with
`columns = ["hms_float"] + list(tmy_data.columns)` (source lines 240-241). -/
def DayTable.numColumns (dt : DayTable) : ℕ := 1 + dt.cols.length

/-- Body of the `for (year, month, day) ... in time_data.items()` loop
(source lines 234-269) for a single group. -/
def groupTable (method : InterpMethod) (tmy : TMY) (month day : ℕ)
    (ts : List Timestamp) : Except PyError DayTable :=
  match exceptMap
      (fun col =>
        (interpColumn method tmy month (lookupDay month day) col
            (ts.map hmsFloat)).map (fun vs => (col, vs)))
      tmy.cols with
  | Except.error e => Except.error e
  | Except.ok cvals => Except.ok ⟨ts, ts.map hmsFloat, cvals⟩

/-- `climate_data_from_pvgis_tmy_dataframe(time_data, tmy_data, interp_method)`
(source lines 172-271).  `time_data` is the insertion-ordered dict of
(year, month, day) keys to timestamp sequences; an exception raised for any
group aborts the whole call, so the caller receives either the complete map
or an error and no partial output. -/
def climate_data_from_pvgis_tmy_dataframe
    (time_data : List ((ℕ × ℕ × ℕ) × List Timestamp)) (tmy : TMY)
    (interp_method : InterpMethod) :
    Except PyError (List ((ℕ × ℕ × ℕ) × DayTable)) :=
  exceptMap
    (fun g =>
      (groupTable interp_method tmy g.1.2.1 g.1.2.2 g.2).map (fun dt => (g.1, dt)))
    time_data

/-! ### The fetch/normalize pipeline of `get_pvgis_tmy_dataframe`

The remote PVGIS response and the pandas calendar machinery are external
collaborators (spec §6).  Modelled from the spec: the response is an hourly
series covering the 8760 hours of one representative non-leap year
(spec §4.1 step 1), identified below with hour-of-year indices 0..8759; the
time-zone conversion relabels each row's wall-clock time by a whole-hour
offset, which on (month, day, hour) triples of the year cycle acts as a
rotation by the offset modulo 8760 (spec §4.1 step 2: it "does not change
row count or values — it only relabels each row's wall-clock local time").
-/

/-- Position of a day within the non-leap year: month first, then days. -/
def mdOfDayGo : ℕ → ℕ → ℕ → ℕ × ℕ
  | 0, m, r => (m, r + 1)
  | fuel + 1, m, r =>
    if r < daysInMonth m then (m, r + 1) else mdOfDayGo fuel (m + 1) (r - daysInMonth m)

/-- (month, day) of the 0-based day-of-year index. -/
def mdOfDay (dy : ℕ) : ℕ × ℕ := mdOfDayGo 11 1 dy

/-- Days in the first m months of the non-leap year. -/
def cumDays : ℕ → ℕ
  | 0 => 0
  | m + 1 => cumDays m + daysInMonth (m + 1)

/-- 0-based day-of-year index of (month, day). -/
def dayIdx (m d : ℕ) : ℕ := cumDays (m - 1) + (d - 1)

/-- (month, day, hour) triple of an hour-of-year index. -/
def tripleOfHour (u : ℕ) : ℕ × ℕ × ℕ :=
  ((mdOfDay (u / 24)).1, (mdOfDay (u / 24)).2, u % 24)

/-- Hour-of-year index of a (month, day, hour) triple. -/
def hourOfTriple (k : ℕ × ℕ × ℕ) : ℕ := 24 * dayIdx k.1 k.2.1 + k.2.2

/-- One row of the raw remote response: an hour-of-year label (UTC) plus the
column values. -/
structure RawRow where
  utc : ℕ
  vals : String → ℚ

/-- One row of the normalized TMY frame: a (month, day, hour) label plus the
column values. -/
structure TMYRow where
  key : ℕ × ℕ × ℕ
  vals : String → ℚ

/-- Modelled from the spec: the remote response, 8760 hourly UTC-indexed
rows (spec §4.1 step 1, §6), with arbitrary values `v`. -/
def rawResponse (v : ℕ → String → ℚ) : List RawRow :=
  (List.range 8760).map (fun u => ⟨u, v u⟩)

/-- Local hour-of-year after shifting a UTC hour-of-year by the whole-hour
offset `o` (rotation of the year's 8760-hour cycle). -/
def rotHour (o : ℤ) (u : ℕ) : ℕ := (((u : ℤ) + o) % 8760).toNat

/-- `tmy_data.index.tz_convert(tz)` followed by `reindex` (source lines
139-149): every row keeps its values and is relabelled with the (month,
day, hour) of its local time. -/
def tzRelabel (o : ℤ) (rows : List RawRow) : List TMYRow :=
  rows.map (fun r => ⟨tripleOfHour (rotHour o r.utc), r.vals⟩)

/-- Lexicographic order on (month, day, hour) triples, the order of
`sort_values(by=["Month", "Day", "Hour"])` (source line 151). -/
def tripleLe (a b : ℕ × ℕ × ℕ) : Prop :=
  a.1 < b.1 ∨ (a.1 = b.1 ∧ (a.2.1 < b.2.1 ∨ (a.2.1 = b.2.1 ∧ a.2.2 ≤ b.2.2)))

instance : DecidableRel tripleLe := fun a b => by unfold tripleLe; infer_instance

instance : IsTotal (ℕ × ℕ × ℕ) tripleLe :=
  ⟨by
    intro a b
    obtain ⟨a1, a2, a3⟩ := a
    obtain ⟨b1, b2, b3⟩ := b
    unfold tripleLe
    simp only
    omega⟩

instance : IsTrans (ℕ × ℕ × ℕ) tripleLe :=
  ⟨by
    intro a b c hab hbc
    obtain ⟨a1, a2, a3⟩ := a
    obtain ⟨b1, b2, b3⟩ := b
    obtain ⟨c1, c2, c3⟩ := c
    unfold tripleLe at hab hbc ⊢
    simp only at hab hbc ⊢
    omega⟩

/-- Row order used to sort the relabelled frame. -/
def rowLe (r s : TMYRow) : Prop := tripleLe r.key s.key

instance : DecidableRel rowLe := fun r s => by unfold rowLe; infer_instance

instance : IsTotal TMYRow rowLe := ⟨fun r s => IsTotal.total (r := tripleLe) r.key s.key⟩

instance : IsTrans TMYRow rowLe :=
  ⟨fun _ _ _ hab hbc => IsTrans.trans (r := tripleLe) _ _ _ hab hbc⟩

/-- Modelled from the spec: the column names of the response of the external
TMY source (pvlib `get_pvgis_tmy` with `map_variables=True`); the module
only consumes and renames them (source docstring lines 47-63 lists the
renamed result). -/
def pvlib_response_columns : List String :=
  ["temp_air", "relative_humidity", "ghi", "dni", "dhi", "IR(h)",
   "wind_speed", "wind_direction", "pressure"]

/-- `new_cols_dict` (source lines 160-162). -/
def new_cols_dict : List (String × String) :=
  [("temp_air", "T2m"), ("relative_humidity", "RH"), ("ghi", "G(h)"),
   ("dni", "Gb(n)"), ("dhi", "Gd(h)"), ("wind_speed", "WS10m"),
   ("wind_direction", "WD10m"), ("pressure", "SP")]

/-- `rename(columns=new_cols_dict)` on a single column name (source line 164):
names not in the dictionary are kept. -/
def renameCol (dict : List (String × String)) (c : String) : String :=
  match dict.find? (fun p => p.1 == c) with
  | some p => p.2
  | none => c

/-- The columns of the returned TMY DataFrame (source docstring lines
44-63): the response columns after renaming. -/
def solrad_tmy_columns : List String :=
  pvlib_response_columns.map (renameCol new_cols_dict)

/-- `get_pvgis_tmy_dataframe` (source lines 9-167): fetch the 8760-row
hourly response, relabel each row by its local (month, day, hour), and sort
by (month, day, hour).  The returned rows' values are keyed by the renamed
column names through `renameCol`; row structure is unaffected by the
renaming. -/
def get_pvgis_tmy_dataframe (o : ℤ) (v : ℕ → String → ℚ) : List TMYRow :=
  List.insertionSort rowLe (tzRelabel o (rawResponse v))

/-! ### Calendar lemmas -/

theorem daysInMonth_le (m : ℕ) : daysInMonth m ≤ 31 := by
  unfold daysInMonth
  rcases m with _|_|_|_|_|_|_|_|_|_|_|_|_|m <;> simp

theorem dayIdx_mdOfDay : ∀ dy < 365, dayIdx (mdOfDay dy).1 (mdOfDay dy).2 = dy := by decide

theorem mdOfDay_bounds :
    ∀ dy < 365, 1 ≤ (mdOfDay dy).1 ∧ (mdOfDay dy).1 ≤ 12 ∧ 1 ≤ (mdOfDay dy).2 ∧
      (mdOfDay dy).2 ≤ daysInMonth (mdOfDay dy).1 := by decide

theorem mdOfDay_dayIdx :
    ∀ m < 13, ∀ d < 32,
      (1 ≤ m ∧ m ≤ 12 ∧ 1 ≤ d ∧ d ≤ daysInMonth m) →
      mdOfDay (dayIdx m d) = (m, d) ∧ dayIdx m d < 365 := by decide

theorem hourOfTriple_tripleOfHour (u : ℕ) (hu : u < 8760) :
    hourOfTriple (tripleOfHour u) = u := by
  have h1 : u / 24 < 365 := by omega
  have h2 := dayIdx_mdOfDay (u / 24) h1
  show 24 * dayIdx (mdOfDay (u / 24)).1 (mdOfDay (u / 24)).2 + u % 24 = u
  omega

theorem validKey_tripleOfHour (u : ℕ) (hu : u < 8760) : ValidKey (tripleOfHour u) := by
  have h1 : u / 24 < 365 := by omega
  have h2 := mdOfDay_bounds (u / 24) h1
  show 1 ≤ (mdOfDay (u / 24)).1 ∧ (mdOfDay (u / 24)).1 ≤ 12 ∧ 1 ≤ (mdOfDay (u / 24)).2 ∧
    (mdOfDay (u / 24)).2 ≤ daysInMonth (mdOfDay (u / 24)).1 ∧ u % 24 ≤ 23
  exact ⟨h2.1, h2.2.1, h2.2.2.1, h2.2.2.2, by omega⟩

theorem tripleOfHour_hourOfTriple (m d h : ℕ) (hv : ValidKey (m, d, h)) :
    tripleOfHour (hourOfTriple (m, d, h)) = (m, d, h) := by
  obtain ⟨h1, h2, h3, h4, h5⟩ :
      1 ≤ m ∧ m ≤ 12 ∧ 1 ≤ d ∧ d ≤ daysInMonth m ∧ h ≤ 23 := hv
  have hdm : daysInMonth m ≤ 31 := daysInMonth_le m
  have hmd := mdOfDay_dayIdx m (by omega) d (by omega) ⟨h1, h2, h3, h4⟩
  show ((mdOfDay ((24 * dayIdx m d + h) / 24)).1, (mdOfDay ((24 * dayIdx m d + h) / 24)).2,
      (24 * dayIdx m d + h) % 24) = (m, d, h)
  have hdiv : (24 * dayIdx m d + h) / 24 = dayIdx m d := by omega
  have hmod : (24 * dayIdx m d + h) % 24 = h := by omega
  rw [hdiv, hmod, hmd.1]

theorem hourOfTriple_lt (m d h : ℕ) (hv : ValidKey (m, d, h)) :
    hourOfTriple (m, d, h) < 8760 := by
  obtain ⟨h1, h2, h3, h4, h5⟩ :
      1 ≤ m ∧ m ≤ 12 ∧ 1 ≤ d ∧ d ≤ daysInMonth m ∧ h ≤ 23 := hv
  have hdm : daysInMonth m ≤ 31 := daysInMonth_le m
  have hmd := mdOfDay_dayIdx m (by omega) d (by omega) ⟨h1, h2, h3, h4⟩
  show 24 * dayIdx m d + h < 8760
  omega

/-! ### Rotation lemmas -/

theorem rotHour_lt (o : ℤ) (u : ℕ) : rotHour o u < 8760 := by
  unfold rotHour
  have h1 : 0 ≤ ((u : ℤ) + o) % 8760 := Int.emod_nonneg _ (by norm_num)
  have h2 : ((u : ℤ) + o) % 8760 < 8760 := Int.emod_lt_of_pos _ (by norm_num)
  omega

theorem rotHour_rotHour (o : ℤ) (u : ℕ) (hu : u < 8760) : rotHour (-o) (rotHour o u) = u := by
  unfold rotHour
  omega

/-! ### Small list lemmas -/

theorem countP_range_eq_one (u n : ℕ) (hu : u < n) :
    List.countP (fun x => decide (x = u)) (List.range n) = 1 := by
  induction n with
  | zero => omega
  | succ n ih =>
    rw [List.range_succ, List.countP_append]
    rcases Nat.lt_or_ge u n with h | h
    · rw [ih h]
      have h2 : List.countP (fun x => decide (x = u)) [n] = 0 := by
        simp [show ¬(n = u) by omega]
      omega
    · have hun : u = n := by omega
      subst hun
      have h0 : List.countP (fun x => decide (x = u)) (List.range u) = 0 :=
        List.countP_eq_zero.mpr (by
          intro a ha
          simp only [decide_eq_true_eq]
          exact Nat.ne_of_lt (List.mem_range.mp ha))
      have h2 : List.countP (fun x => decide (x = u)) [u] = 1 := by simp
      omega

/-! ### exceptMap lemmas -/

theorem exceptMap_ok_length {α β ε : Type} (f : α → Except ε β) (l : List α) (out : List β)
    (h : exceptMap f l = Except.ok out) : out.length = l.length := by
  induction l generalizing out with
  | nil =>
    unfold exceptMap at h
    cases h
    rfl
  | cons a as ih =>
    unfold exceptMap at h
    cases hfa : f a with
    | error e => rw [hfa] at h; cases h
    | ok b =>
      rw [hfa] at h
      cases hrec : exceptMap f as with
      | error e => rw [hrec] at h; cases h
      | ok bs =>
        rw [hrec] at h
        cases h
        simp [ih bs hrec]

theorem exceptMap_ok_get {α β ε : Type} (f : α → Except ε β) (l : List α) (out : List β)
    (h : exceptMap f l = Except.ok out) :
    ∀ i (hi : i < l.length) (ho : i < out.length),
      f (l.get ⟨i, hi⟩) = Except.ok (out.get ⟨i, ho⟩) := by
  induction l generalizing out with
  | nil => intro i hi; simp at hi
  | cons a as ih =>
    unfold exceptMap at h
    cases hfa : f a with
    | error e => rw [hfa] at h; cases h
    | ok b =>
      rw [hfa] at h
      cases hrec : exceptMap f as with
      | error e => rw [hrec] at h; cases h
      | ok bs =>
        rw [hrec] at h
        cases h
        intro i hi ho
        cases i with
        | zero => simpa using hfa
        | succ j =>
          have hj : j < as.length := by simpa using hi
          have hj2 : j < bs.length := by simpa using ho
          simpa using ih bs hrec j hj hj2

theorem exceptMap_congr {α β ε : Type} (f g : α → Except ε β) (l : List α)
    (h : ∀ a ∈ l, f a = g a) : exceptMap f l = exceptMap g l := by
  induction l with
  | nil => rfl
  | cons a as ih =>
    unfold exceptMap
    rw [h a (List.mem_cons_self a as), ih (fun b hb => h b (List.mem_cons_of_mem a hb))]

theorem exceptMap_error_of_mem {α β ε : Type} (f : α → Except ε β) (l : List α) (a : α)
    (e : ε) (ha : a ∈ l) (he : f a = Except.error e) :
    ∃ e2, exceptMap f l = Except.error e2 := by
  induction l with
  | nil => cases ha
  | cons b bs ih =>
    unfold exceptMap
    rcases List.mem_cons.mp ha with hab | hmem
    · subst hab
      rw [he]
      exact ⟨e, rfl⟩
    · cases hfb : f b with
      | error e2 => exact ⟨e2, rfl⟩
      | ok c =>
        obtain ⟨e2, he2⟩ := ih hmem
        rw [he2]
        exact ⟨e2, rfl⟩

theorem exceptMap_error_mem {α β ε : Type} (f : α → Except ε β) (l : List α) (e : ε)
    (h : exceptMap f l = Except.error e) : ∃ a ∈ l, f a = Except.error e := by
  induction l with
  | nil => unfold exceptMap at h; cases h
  | cons a as ih =>
    unfold exceptMap at h
    cases hfa : f a with
    | error e2 =>
      rw [hfa] at h
      cases h
      exact ⟨a, List.mem_cons_self a as, hfa⟩
    | ok b =>
      rw [hfa] at h
      cases hrec : exceptMap f as with
      | error e2 =>
        rw [hrec] at h
        cases h
        obtain ⟨c, hc, hce⟩ := ih hrec
        exact ⟨c, List.mem_cons_of_mem a hc, hce⟩
      | ok bs => rw [hrec] at h; cases h

theorem exceptMap_map_of_ok {α β ε : Type} (f : α → Except ε β) (g : α → β) (l : List α)
    (h : ∀ a ∈ l, f a = Except.ok (g a)) : exceptMap f l = Except.ok (l.map g) := by
  induction l with
  | nil => rfl
  | cons a as ih =>
    unfold exceptMap
    rw [h a (List.mem_cons_self a as), ih (fun b hb => h b (List.mem_cons_of_mem a hb))]
    rfl

theorem exceptMap_ok_mem {α β ε : Type} (f : α → Except ε β) (l : List α) (out : List β)
    (h : exceptMap f l = Except.ok out) : ∀ b ∈ out, ∃ a ∈ l, f a = Except.ok b := by
  induction l generalizing out with
  | nil =>
    unfold exceptMap at h
    cases h
    intro b hb
    cases hb
  | cons a as ih =>
    unfold exceptMap at h
    cases hfa : f a with
    | error e => rw [hfa] at h; cases h
    | ok b =>
      rw [hfa] at h
      cases hrec : exceptMap f as with
      | error e => rw [hrec] at h; cases h
      | ok bs =>
        rw [hrec] at h
        cases h
        intro c hc
        rcases List.mem_cons.mp hc with hcb | hmem
        · subst hcb
          exact ⟨a, List.mem_cons_self a as, hfa⟩
        · obtain ⟨a2, ha2, ha2e⟩ := ih bs hrec c hmem
          exact ⟨a2, List.mem_cons_of_mem a ha2, ha2e⟩

/-! ### Node exactness of the three interpolants -/

theorem segIndex_natCast (h : ℕ) (hh : h ≤ 23) : segIndex (h : ℚ) = h := by
  unfold segIndex
  rw [Int.floor_natCast, Int.toNat_natCast]
  omega

theorem nodeAt_eq (y : Fin 25 → ℚ) (i : ℕ) (hi : i ≤ 24) :
    nodeAt y i = y ⟨i, by omega⟩ := by
  unfold nodeAt
  have hmin : min i 24 = i := by omega
  simp only [hmin]

/-- Every one of the three interpolants reproduces the node value at every
integer hour mark h = 0..23. -/
theorem evalInterp_at_node (method : InterpMethod) (y : Fin 25 → ℚ) (h : ℕ) (hh : h ≤ 23) :
    evalInterp method y (h : ℚ) = y ⟨h, by omega⟩ := by
  have hseg : segIndex (h : ℚ) = h := segIndex_natCast h hh
  cases method with
  | linear =>
    show evalLinear y (h : ℚ) = _
    unfold evalLinear
    simp only [hseg, sub_self, mul_zero, add_zero]
    rw [nodeAt_eq y h (by omega)]
  | quadratic =>
    show evalQuadratic y (h : ℚ) = _
    unfold evalQuadratic
    simp only [hseg, sub_self]
    rw [nodeAt_eq y h (by omega)]
    ring
  | cubic =>
    show evalCubic y (h : ℚ) = _
    unfold evalCubic
    simp only [hseg, sub_self]
    rw [nodeAt_eq y h (by omega)]
    ring

/-! ### Well-formed tables -/

/-- A valid date for a target group: a real date of the non-leap calendar,
or the leap day February 29. -/
def ValidTargetDate (m d : ℕ) : Prop :=
  (1 ≤ m ∧ m ≤ 12 ∧ 1 ≤ d ∧ d ≤ daysInMonth m) ∨ (m = 2 ∧ d = 29)

instance (m d : ℕ) : Decidable (ValidTargetDate m d) := by
  unfold ValidTargetDate; infer_instance

theorem lookupDay_bounds (m d : ℕ) (h : ValidTargetDate m d) :
    1 ≤ m ∧ m ≤ 12 ∧ 1 ≤ lookupDay m d ∧ lookupDay m d ≤ daysInMonth m := by
  unfold lookupDay
  rcases h with ⟨h1, h2, h3, h4⟩ | ⟨h1, h2⟩
  · have hne : ¬(m = 2 ∧ d = 29) := by
      rintro ⟨e1, e2⟩
      subst e1
      subst e2
      exact absurd h4 (by decide)
    rw [if_neg hne]
    exact ⟨h1, h2, h3, h4⟩
  · subst h1
    subst h2
    decide

theorem dayHours_wf (tmy : TMY) (m d : ℕ) (hwf : WellFormed tmy)
    (hm1 : 1 ≤ m) (hm2 : m ≤ 12) (hd1 : 1 ≤ d) (hd2 : d ≤ daysInMonth m) :
    dayHours tmy m d = List.range 24 := by
  unfold dayHours
  apply List.filter_eq_self.mpr
  intro h hh
  have hlt : h < 24 := List.mem_range.mp hh
  exact (hwf (m, d, h)).mpr
    (show 1 ≤ m ∧ m ≤ 12 ∧ 1 ≤ d ∧ d ≤ daysInMonth m ∧ h ≤ 23 from
      ⟨hm1, hm2, hd1, hd2, by omega⟩)

theorem closingNode_isSome (tmy : TMY) (m d : ℕ) (col : String)
    (h : tmy.present (1, 1, 0) = true) : (closingNode tmy m d col).isSome = true := by
  unfold closingNode
  by_cases h1 : tmy.present (m, d + 1, 0) = true
  · simp [h1]
  · by_cases h2 : tmy.present (m + 1, 1, 0) = true <;>
      simp [h1, h2, h]

/-- The 25 interpolation nodes of a well-formed table: the hourly values of
the lookup day at x = 0..23 and the resolved closing value at x = 24. -/
def wfNodes (tmy : TMY) (m d : ℕ) (col : String) : Fin 25 → ℚ :=
  fun i => if i.val < 24 then tmy.val (m, d, i.val) col
    else (closingNode tmy m d col).getD 0

theorem interpColumn_wf (method : InterpMethod) (tmy : TMY) (m d : ℕ) (col : String)
    (hms : List ℚ) (hwf : WellFormed tmy)
    (hm1 : 1 ≤ m) (hm2 : m ≤ 12) (hd1 : 1 ≤ d) (hd2 : d ≤ daysInMonth m) :
    interpColumn method tmy m d col hms =
      Except.ok (hms.map (evalInterp method (wfNodes tmy m d col))) := by
  have hdh := dayHours_wf tmy m d hwf hm1 hm2 hd1 hd2
  have hp110 : tmy.present (1, 1, 0) = true := (hwf (1, 1, 0)).mpr (by decide)
  obtain ⟨c, hc⟩ := Option.isSome_iff_exists.mp (closingNode_isSome tmy m d col hp110)
  unfold interpColumn locDayCol
  rw [hdh, hc]
  have hne : ¬((List.range 24 : List ℕ) = []) := by decide
  rw [if_neg hne]
  dsimp only
  have hlen : ((List.map (fun h => tmy.val (m, d, h) col) (List.range 24)) ++ [c]).length = 25 := by
    simp
  rw [dif_pos hlen]
  have hfun : (fun i : Fin 25 =>
      ((List.map (fun h => tmy.val (m, d, h) col) (List.range 24)) ++ [c]).get
        (Fin.cast hlen.symm i)) = wfNodes tmy m d col := by
    funext i
    rw [List.get_eq_getElem]
    simp only [Fin.coe_cast]
    by_cases hi : i.val < 24
    · have hbl : i.val < (List.map (fun h => tmy.val (m, d, h) col) (List.range 24)).length := by
        simpa using hi
      rw [List.getElem_append_left hbl]
      simp only [List.getElem_map, List.getElem_range]
      unfold wfNodes
      rw [if_pos hi]
    · have hi24 : (i : ℕ) = 24 := by omega
      have hbl : (List.map (fun h => tmy.val (m, d, h) col) (List.range 24)).length ≤ i.val := by
        simp [hi24]
      rw [List.getElem_append_right hbl]
      unfold wfNodes
      rw [if_neg hi, hc]
      simp [hi24]
  rw [hfun]

/-- On a well-formed table and a valid target date, a whole group succeeds
and computes exactly the per-column interpolations. -/
theorem groupTable_wf (method : InterpMethod) (tmy : TMY) (month day : ℕ)
    (ts : List Timestamp) (hwf : WellFormed tmy) (hv : ValidTargetDate month day) :
    groupTable method tmy month day ts =
      Except.ok ⟨ts, ts.map hmsFloat,
        tmy.cols.map (fun col =>
          (col, (ts.map hmsFloat).map
            (evalInterp method (wfNodes tmy month (lookupDay month day) col))))⟩ := by
  obtain ⟨hm1, hm2, hd1, hd2⟩ := lookupDay_bounds month day hv
  unfold groupTable
  rw [exceptMap_map_of_ok _
    (fun col => (col, (ts.map hmsFloat).map
      (evalInterp method (wfNodes tmy month (lookupDay month day) col))))
    _
    (fun col _ => by
      rw [interpColumn_wf method tmy month (lookupDay month day) col (ts.map hmsFloat)
        hwf hm1 hm2 hd1 hd2]
      rfl)]

/-! ### Fractional-hour bounds -/

theorem hmsFloat_nonneg (t : Timestamp) : 0 ≤ hmsFloat t := by
  unfold hmsFloat
  positivity

theorem hmsFloat_lt_24 (t : Timestamp) (h : t.Valid) : hmsFloat t < 24 := by
  obtain ⟨h1, h2, h3⟩ := h
  unfold hmsFloat
  have c1 : (t.hour : ℚ) ≤ 23 := by exact_mod_cast Nat.lt_succ_iff.mp h1
  have c2 : (t.minute : ℚ) ≤ 59 := by exact_mod_cast Nat.lt_succ_iff.mp h2
  have c3 : (t.second : ℚ) ≤ 59 := by exact_mod_cast Nat.lt_succ_iff.mp h3
  have d2 : (t.minute : ℚ) / 60 ≤ 59 / 60 :=
    (div_le_div_iff_of_pos_right (by norm_num)).mpr c2
  have d3 : (t.second : ℚ) / 3600 ≤ 59 / 3600 :=
    (div_le_div_iff_of_pos_right (by norm_num)).mpr c3
  linarith

theorem WellFormed_present_false (tmy : TMY) (hwf : WellFormed tmy) (k : ℕ × ℕ × ℕ)
    (hk : ¬ValidKey k) : tmy.present k = false := by
  cases hp : tmy.present k
  · rfl
  · exact absurd ((hwf k).mp hp) hk

/-- The value part of an output table: everything except the timestamp
index. -/
def tableVals (dt : DayTable) : List ℚ × List (String × List ℚ) :=
  (dt.hms_float, dt.cols)

theorem hmsFloat_of_timeOfDay (t : Timestamp) :
    hmsFloat t = ((timeOfDay t).1 : ℚ) + ((timeOfDay t).2.1 : ℚ) / 60 +
      ((timeOfDay t).2.2 : ℚ) / 3600 := rfl

theorem map_hmsFloat_of_timeOfDay (ts ts2 : List Timestamp)
    (h : ts.map timeOfDay = ts2.map timeOfDay) :
    ts.map hmsFloat = ts2.map hmsFloat := by
  have hfun : hmsFloat = (fun k : ℕ × ℕ × ℕ =>
      (k.1 : ℚ) + (k.2.1 : ℚ) / 60 + (k.2.2 : ℚ) / 3600) ∘ timeOfDay := by
    funext t
    rfl
  rw [hfun, ← List.map_map, ← List.map_map, h]

theorem groupTable_leap (tmy : TMY) (method : InterpMethod) (ts ts2 : List Timestamp)
    (h : ts.map timeOfDay = ts2.map timeOfDay) :
    (groupTable method tmy 2 29 ts).map tableVals =
      (groupTable method tmy 2 28 ts2).map tableVals := by
  have hms : ts.map hmsFloat = ts2.map hmsFloat := map_hmsFloat_of_timeOfDay ts ts2 h
  have hday : lookupDay 2 29 = lookupDay 2 28 := by decide
  unfold groupTable
  rw [hms, hday]
  cases hE : exceptMap
      (fun col =>
        (interpColumn method tmy 2 (lookupDay 2 28) col (ts2.map hmsFloat)).map
          (fun vs => (col, vs)))
      tmy.cols with
  | error e => rfl
  | ok cvals => rfl

theorem climate_singleton (k : ℕ × ℕ × ℕ) (ts : List Timestamp) (tmy : TMY)
    (method : InterpMethod) :
    climate_data_from_pvgis_tmy_dataframe [(k, ts)] tmy method =
      (groupTable method tmy k.2.1 k.2.2 ts).map (fun dt => [(k, dt)]) := by
  cases hE : groupTable method tmy k.2.1 k.2.2 ts with
  | error e => simp [climate_data_from_pvgis_tmy_dataframe, exceptMap, hE, Except.map]
  | ok dt => simp [climate_data_from_pvgis_tmy_dataframe, exceptMap, hE, Except.map]

/-- C2: For every (year, month, day) group and every TMY column, the closing
interpolation node at x = 24 is resolved by trying, in order, hour 0 of
(month, lookup_day + 1), else hour 0 of day 1 of the next month, else hour 0
of (month 1, day 1); the first key present in the TMY table supplies the
closing value. -/
theorem C2_closing_fallback_chain (tmy : TMY) (m d : ℕ) (col : String) :
    closingNode tmy m (lookupDay m d) col =
      firstPresent tmy col [(m, lookupDay m d + 1, 0), (m + 1, 1, 0), (1, 1, 0)] := by
  simp only [closingNode, firstPresent]

/-- C4: For every interpolation method and every TMY table, a target group
keyed (year, 2, 29) produces an output table whose climate-variable values
(and fractional-hour column) equal those produced for a group keyed
(year, 2, 28) with the same time-of-day sequence; leap-day lookups
substitute day 28, and all other dates use their own day unchanged. -/
theorem C4_leap_day_substitution (tmy : TMY) (method : InterpMethod) (y : ℕ)
    (ts ts2 : List Timestamp) (h : ts.map timeOfDay = ts2.map timeOfDay) :
    (climate_data_from_pvgis_tmy_dataframe [((y, 2, 29), ts)] tmy method).map
        (List.map (fun g => tableVals g.2)) =
      (climate_data_from_pvgis_tmy_dataframe [((y, 2, 28), ts2)] tmy method).map
        (List.map (fun g => tableVals g.2)) ∧
    ∀ m d : ℕ, ¬(m = 2 ∧ d = 29) → lookupDay m d = d := by
  constructor
  · have hgt := groupTable_leap tmy method ts ts2 h
    rw [climate_singleton (y, 2, 29) ts tmy method, climate_singleton (y, 2, 28) ts2 tmy method]
    dsimp only
    cases hE : groupTable method tmy 2 29 ts with
    | error e =>
      cases hE2 : groupTable method tmy 2 28 ts2 with
      | error e2 =>
        rw [hE, hE2] at hgt
        have he : e = e2 := Except.error.inj hgt
        rw [he]
        rfl
      | ok dt2 => rw [hE, hE2] at hgt; cases hgt
    | ok dt =>
      cases hE2 : groupTable method tmy 2 28 ts2 with
      | error e2 => rw [hE, hE2] at hgt; cases hgt
      | ok dt2 =>
        rw [hE, hE2] at hgt
        have hv : tableVals dt = tableVals dt2 := Except.ok.inj hgt
        simp [Except.map, hv]
  · intro m d hmd
    unfold lookupDay
    rw [if_neg hmd]

/-- C5: For every well-formed TMY table, a target group for December 31
resolves its closing node from the TMY row keyed (1, 1, 0) — January 1,
hour 0 — and the group is built without any closing-node-resolution
error. -/
theorem C5_december_wraparound (tmy : TMY) (method : InterpMethod) (ts : List Timestamp)
    (col : String) (hwf : WellFormed tmy) :
    closingNode tmy 12 (lookupDay 12 31) col = some (tmy.val (1, 1, 0) col) ∧
    ∃ dt, groupTable method tmy 12 31 ts = Except.ok dt := by
  constructor
  · have hld : lookupDay 12 31 = 31 := by decide
    rw [hld]
    have h1 : tmy.present (12, 32, 0) = false :=
      WellFormed_present_false tmy hwf (12, 32, 0) (by decide)
    have h2 : tmy.present (13, 1, 0) = false :=
      WellFormed_present_false tmy hwf (13, 1, 0) (by decide)
    have h3 : tmy.present (1, 1, 0) = true := (hwf (1, 1, 0)).mpr (by decide)
    simp [closingNode, h1, h2, h3]
  · exact ⟨_, groupTable_wf method tmy 12 31 ts hwf (Or.inl (by decide))⟩

/-- C3: For every target timestamp whose fractional hour is exactly an
integer h in 0..23 (minute and second both zero), the interpolated value of
every climate column equals the TMY's value at the (lookup month, lookup
day, h) row exactly, for every one of the three methods. -/
theorem C3_exact_at_hour_marks (tmy : TMY) (method : InterpMethod) (m d : ℕ)
    (ts : List Timestamp) (j i : ℕ)
    (hwf : WellFormed tmy) (hv : ValidTargetDate m d)
    (hj : j < tmy.cols.length) (hi : i < ts.length)
    (hhour : (ts.get ⟨i, hi⟩).hour ≤ 23)
    (hmin : (ts.get ⟨i, hi⟩).minute = 0) (hsec : (ts.get ⟨i, hi⟩).second = 0) :
    ∃ dt, groupTable method tmy m d ts = Except.ok dt ∧
      (dt.cols.getD j ("", [])).1 = tmy.cols.getD j "" ∧
      ((dt.cols.getD j ("", [])).2).getD i 0 =
        tmy.val (m, lookupDay m d, (ts.get ⟨i, hi⟩).hour) (tmy.cols.getD j "") := by
  refine ⟨_, groupTable_wf method tmy m d ts hwf hv, ?_, ?_⟩
  · have hj2 : j < (tmy.cols.map (fun col =>
        (col, (ts.map hmsFloat).map
          (evalInterp method (wfNodes tmy m (lookupDay m d) col))))).length := by
      simpa using hj
    rw [List.getD_eq_getElem _ _ hj2, List.getD_eq_getElem _ _ hj, List.getElem_map]
  · have hj2 : j < (tmy.cols.map (fun col =>
        (col, (ts.map hmsFloat).map
          (evalInterp method (wfNodes tmy m (lookupDay m d) col))))).length := by
      simpa using hj
    rw [List.getD_eq_getElem _ _ hj2, List.getElem_map]
    have hi2 : i < ((ts.map hmsFloat).map
        (evalInterp method (wfNodes tmy m (lookupDay m d) (tmy.cols[j])))).length := by
      simpa using hi
    rw [List.getD_eq_getElem _ _ hi2, List.getElem_map, List.getElem_map]
    have hts : ts[i] = ts.get ⟨i, hi⟩ := rfl
    rw [hts]
    have hh : hmsFloat (ts.get ⟨i, hi⟩) = (((ts.get ⟨i, hi⟩).hour : ℕ) : ℚ) := by
      unfold hmsFloat
      rw [hmin, hsec]
      simp
    rw [hh, evalInterp_at_node method _ _ hhour]
    unfold wfNodes
    rw [if_pos (by omega : ((ts.get ⟨i, hi⟩).hour : ℕ) < 24)]
    rw [List.getD_eq_getElem _ _ hj]

/-- C6: If none of the three fallback keys resolve a closing value for some
(day, column) pair of the input map, the whole call errors out: the caller
receives no map at all, hence no partial or degraded table for the
offending day. -/
theorem C6_closing_failure_aborts (time_data : List ((ℕ × ℕ × ℕ) × List Timestamp))
    (tmy : TMY) (method : InterpMethod) (k : ℕ × ℕ × ℕ) (ts : List Timestamp)
    (col : String) (hk : (k, ts) ∈ time_data) (hcol : col ∈ tmy.cols)
    (hclose : closingNode tmy k.2.1 (lookupDay k.2.1 k.2.2) col = none) :
    ∃ e, climate_data_from_pvgis_tmy_dataframe time_data tmy method = Except.error e := by
  have hic : ∃ e0, interpColumn method tmy k.2.1 (lookupDay k.2.1 k.2.2) col
      (ts.map hmsFloat) = Except.error e0 := by
    cases hl : locDayCol tmy k.2.1 (lookupDay k.2.1 k.2.2) col with
    | none => exact ⟨PyError.keyErrorDay, by unfold interpColumn; rw [hl]⟩
    | some base =>
      exact ⟨PyError.missingClosingNode, by unfold interpColumn; rw [hl, hclose]⟩
  obtain ⟨e0, he0⟩ := hic
  have hgt : ∃ e1, groupTable method tmy k.2.1 k.2.2 ts = Except.error e1 := by
    obtain ⟨e1, he1⟩ := exceptMap_error_of_mem
      (fun c2 =>
        (interpColumn method tmy k.2.1 (lookupDay k.2.1 k.2.2) c2
            (ts.map hmsFloat)).map (fun vs => (c2, vs)))
      tmy.cols col e0 hcol (by dsimp only; rw [he0]; rfl)
    exact ⟨e1, by unfold groupTable; rw [he1]⟩
  obtain ⟨e1, he1⟩ := hgt
  unfold climate_data_from_pvgis_tmy_dataframe
  exact exceptMap_error_of_mem _ time_data (k, ts) e1 hk
    (show (groupTable method tmy k.2.1 k.2.2 ts).map (fun dt => (k, dt)) = Except.error e1 by
      rw [he1]; rfl)

/-- C10: For every TMY table that contains the row keyed (1, 1, 0), the
closing-node fallback chain always resolves, so the re-raise branch after
the third lookup is unreachable and the whole function can never fail with
the missing-closing-node error. -/
theorem C10_missing_closing_unreachable (tmy : TMY) (h : tmy.present (1, 1, 0) = true) :
    (∀ m d col, (closingNode tmy m d col).isSome = true) ∧
    ∀ (time_data : List ((ℕ × ℕ × ℕ) × List Timestamp)) (method : InterpMethod),
      climate_data_from_pvgis_tmy_dataframe time_data tmy method ≠
        Except.error PyError.missingClosingNode := by
  have hno : ∀ (method : InterpMethod) (m d : ℕ) (col : String) (hms : List ℚ),
      interpColumn method tmy m d col hms ≠ Except.error PyError.missingClosingNode := by
    intro method m d col hms hcontra
    have hsome := closingNode_isSome tmy m d col h
    unfold interpColumn at hcontra
    cases hl : locDayCol tmy m d col with
    | none =>
      rw [hl] at hcontra
      simp at hcontra
    | some base =>
      obtain ⟨c, hc⟩ := Option.isSome_iff_exists.mp hsome
      rw [hl, hc] at hcontra
      dsimp only at hcontra
      by_cases hlen : (base ++ [c]).length = 25
      · rw [dif_pos hlen] at hcontra
        simp at hcontra
      · rw [dif_neg hlen] at hcontra
        simp at hcontra
  constructor
  · intro m d col
    exact closingNode_isSome tmy m d col h
  · intro time_data method hcontra
    obtain ⟨g, hg, hge⟩ := exceptMap_error_mem _ _ _ hcontra
    have hgt : groupTable method tmy g.1.2.1 g.1.2.2 g.2 =
        Except.error PyError.missingClosingNode := by
      cases hE : groupTable method tmy g.1.2.1 g.1.2.2 g.2 with
      | error e =>
        rw [hE] at hge
        have : e = PyError.missingClosingNode := Except.error.inj hge
        rw [this]
      | ok dt =>
        rw [hE] at hge
        cases hge
    unfold groupTable at hgt
    cases hE2 : exceptMap
        (fun col =>
          (interpColumn method tmy g.1.2.1 (lookupDay g.1.2.1 g.1.2.2) col
              (g.2.map hmsFloat)).map (fun vs => (col, vs)))
        tmy.cols with
    | error e2 =>
      rw [hE2] at hgt
      have he2 : e2 = PyError.missingClosingNode := Except.error.inj hgt
      subst he2
      obtain ⟨col, hcolmem, hcole⟩ := exceptMap_error_mem _ _ _ hE2
      cases hic : interpColumn method tmy g.1.2.1 (lookupDay g.1.2.1 g.1.2.2) col
          (g.2.map hmsFloat) with
      | error e3 =>
        rw [hic] at hcole
        have : e3 = PyError.missingClosingNode := Except.error.inj hcole
        subst this
        exact hno method _ _ col _ hic
      | ok vs =>
        rw [hic] at hcole
        cases hcole
    | ok cvals =>
      rw [hE2] at hgt
      cases hgt

theorem exceptMap_ok_keys {α β γ ε : Type} (f : α → Except ε β) (l : List α) (out : List β)
    (key : α → γ) (keyb : β → γ)
    (hf : ∀ a b, f a = Except.ok b → keyb b = key a)
    (h : exceptMap f l = Except.ok out) : out.map keyb = l.map key := by
  induction l generalizing out with
  | nil =>
    unfold exceptMap at h
    cases h
    rfl
  | cons a as ih =>
    unfold exceptMap at h
    cases hfa : f a with
    | error e => rw [hfa] at h; cases h
    | ok b =>
      rw [hfa] at h
      cases hrec : exceptMap f as with
      | error e => rw [hrec] at h; cases h
      | ok bs =>
        rw [hrec] at h
        cases h
        simp only [List.map_cons]
        rw [hf a b hfa, ih bs hrec]

theorem groupTable_ok_shape (method : InterpMethod) (tmy : TMY) (month day : ℕ)
    (ts : List Timestamp) (dt : DayTable)
    (h : groupTable method tmy month day ts = Except.ok dt) :
    dt.index = ts ∧ dt.hms_float = ts.map hmsFloat ∧ dt.cols.length = tmy.cols.length := by
  unfold groupTable at h
  cases hE : exceptMap
      (fun col =>
        (interpColumn method tmy month (lookupDay month day) col (ts.map hmsFloat)).map
          (fun vs => (col, vs)))
      tmy.cols with
  | error e => rw [hE] at h; cases h
  | ok cvals =>
    rw [hE] at h
    cases h
    exact ⟨rfl, rfl, exceptMap_ok_length _ _ _ hE⟩

/-- C8: For every input map on which the call succeeds, the output map has
exactly one entry per input group with the same (year, month, day) key, in
order; each output table is indexed identically to that group's input
timestamp sequence, has as many rows as the group, and its fractional-hour
column holds hour + minute/60 + second/3600 of each timestamp, a value in
[0, 24). -/
theorem C8_output_shape (time_data : List ((ℕ × ℕ × ℕ) × List Timestamp)) (tmy : TMY)
    (method : InterpMethod) (out : List ((ℕ × ℕ × ℕ) × DayTable))
    (hok : climate_data_from_pvgis_tmy_dataframe time_data tmy method = Except.ok out)
    (hts : ∀ g ∈ time_data, ∀ t ∈ g.2, t.Valid) :
    out.map Prod.fst = time_data.map Prod.fst ∧
    out.length = time_data.length ∧
    ∀ i (ho : i < out.length) (hi : i < time_data.length),
      (out.get ⟨i, ho⟩).2.index = (time_data.get ⟨i, hi⟩).2 ∧
      (out.get ⟨i, ho⟩).2.index.length = (time_data.get ⟨i, hi⟩).2.length ∧
      (out.get ⟨i, ho⟩).2.hms_float = ((time_data.get ⟨i, hi⟩).2).map hmsFloat ∧
      ∀ t ∈ (time_data.get ⟨i, hi⟩).2,
        hmsFloat t = (t.hour : ℚ) + (t.minute : ℚ) / 60 + (t.second : ℚ) / 3600 ∧
        0 ≤ hmsFloat t ∧ hmsFloat t < 24 := by
  unfold climate_data_from_pvgis_tmy_dataframe at hok
  refine ⟨?_, ?_, ?_⟩
  · apply exceptMap_ok_keys _ _ _ Prod.fst Prod.fst _ hok
    intro g b hgb
    cases hE : groupTable method tmy g.1.2.1 g.1.2.2 g.2 with
    | error e => rw [hE] at hgb; cases hgb
    | ok dt =>
      rw [hE] at hgb
      cases hgb
      rfl
  · exact exceptMap_ok_length _ _ _ hok
  · intro i ho hi
    have hget := exceptMap_ok_get _ _ _ hok i hi ho
    set g := time_data.get ⟨i, hi⟩ with hg
    cases hE : groupTable method tmy g.1.2.1 g.1.2.2 g.2 with
    | error e => rw [hE] at hget; cases hget
    | ok dt =>
      rw [hE] at hget
      have hout : out.get ⟨i, ho⟩ = (g.1, dt) := (Except.ok.inj hget).symm
      obtain ⟨hidx, hhms, _⟩ := groupTable_ok_shape method tmy g.1.2.1 g.1.2.2 g.2 dt hE
      rw [hout]
      refine ⟨hidx, by rw [hidx], hhms, ?_⟩
      intro t ht
      have hvalid : t.Valid := hts g (List.get_mem time_data i hi) t ht
      exact ⟨rfl, hmsFloat_nonneg t, hmsFloat_lt_24 t hvalid⟩

/-! ### Per-column independence -/

theorem interpColumn_val_eq (method : InterpMethod) (tmy tmy2 : TMY) (m d : ℕ)
    (col : String) (hms : List ℚ) (hpres : tmy.present = tmy2.present)
    (hval : ∀ k, tmy.val k col = tmy2.val k col) :
    interpColumn method tmy m d col hms = interpColumn method tmy2 m d col hms := by
  unfold interpColumn locDayCol dayHours closingNode
  rw [hpres]
  simp only [hval]

theorem locDayCol_none_iff (tmy tmy2 : TMY) (m d : ℕ) (col col2 : String)
    (hpres : tmy.present = tmy2.present) :
    (locDayCol tmy m d col = none ↔ locDayCol tmy2 m d col2 = none) := by
  have hdh : dayHours tmy m d = dayHours tmy2 m d := by unfold dayHours; rw [hpres]
  unfold locDayCol
  rw [hdh]
  by_cases hempty : dayHours tmy2 m d = [] <;> simp [hempty]

theorem locDayCol_some_len (tmy tmy2 : TMY) (m d : ℕ) (col col2 : String)
    (hpres : tmy.present = tmy2.present) (base : List ℚ)
    (h : locDayCol tmy m d col = some base) :
    ∃ base2, locDayCol tmy2 m d col2 = some base2 ∧ base2.length = base.length := by
  have hdh : dayHours tmy m d = dayHours tmy2 m d := by unfold dayHours; rw [hpres]
  unfold locDayCol at h ⊢
  rw [hdh] at h
  by_cases hempty : dayHours tmy2 m d = []
  · rw [if_pos hempty] at h
    cases h
  · rw [if_neg hempty] at h ⊢
    refine ⟨_, rfl, ?_⟩
    have hb := Option.some.inj h
    rw [← hb]
    simp

theorem closingNode_none_iff (tmy tmy2 : TMY) (m d : ℕ) (col col2 : String)
    (hpres : tmy.present = tmy2.present) :
    (closingNode tmy m d col = none ↔ closingNode tmy2 m d col2 = none) := by
  unfold closingNode
  rw [hpres]
  by_cases h1 : tmy2.present (m, d + 1, 0) = true
  · simp [h1]
  · by_cases h2 : tmy2.present (m + 1, 1, 0) = true
    · simp [h1, h2]
    · by_cases h3 : tmy2.present (1, 1, 0) = true <;> simp [h1, h2, h3]

theorem interpColumn_cases (method : InterpMethod) (tmy tmy2 : TMY) (m d : ℕ)
    (col : String) (hms : List ℚ) (hpres : tmy.present = tmy2.present) :
    (∃ e, interpColumn method tmy m d col hms = Except.error e ∧
          interpColumn method tmy2 m d col hms = Except.error e) ∨
    (∃ vs vs2, interpColumn method tmy m d col hms = Except.ok vs ∧
               interpColumn method tmy2 m d col hms = Except.ok vs2) := by
  cases hl1 : locDayCol tmy m d col with
  | none =>
    have hl2 : locDayCol tmy2 m d col = none :=
      (locDayCol_none_iff tmy tmy2 m d col col hpres).mp hl1
    left
    exact ⟨PyError.keyErrorDay, by unfold interpColumn; rw [hl1],
      by unfold interpColumn; rw [hl2]⟩
  | some base =>
    obtain ⟨base2, hl2, hlen2⟩ := locDayCol_some_len tmy tmy2 m d col col hpres base hl1
    cases hc1 : closingNode tmy m d col with
    | none =>
      have hc2 : closingNode tmy2 m d col = none :=
        (closingNode_none_iff tmy tmy2 m d col col hpres).mp hc1
      left
      exact ⟨PyError.missingClosingNode, by unfold interpColumn; rw [hl1, hc1],
        by unfold interpColumn; rw [hl2, hc2]⟩
    | some c =>
      have hc2 : ∃ c2, closingNode tmy2 m d col = some c2 := by
        cases hc2x : closingNode tmy2 m d col with
        | none =>
          have := (closingNode_none_iff tmy tmy2 m d col col hpres).mpr hc2x
          rw [hc1] at this
          cases this
        | some c2 => exact ⟨c2, rfl⟩
      obtain ⟨c2, hc2⟩ := hc2
      by_cases hlen : (base ++ [c]).length = 25
      · right
        have hlen2b : (base2 ++ [c2]).length = 25 := by
          simp only [List.length_append, List.length_singleton] at hlen ⊢
          omega
        exact ⟨_, _,
          by unfold interpColumn; rw [hl1, hc1]; dsimp only; rw [dif_pos hlen],
          by unfold interpColumn; rw [hl2, hc2]; dsimp only; rw [dif_pos hlen2b]⟩
      · left
        have hlen2b : ¬((base2 ++ [c2]).length = 25) := by
          simp only [List.length_append, List.length_singleton] at hlen ⊢
          omega
        exact ⟨PyError.valueErrorLength,
          by unfold interpColumn; rw [hl1, hc1]; dsimp only; rw [dif_neg hlen],
          by unfold interpColumn; rw [hl2, hc2]; dsimp only; rw [dif_neg hlen2b]⟩

theorem exceptMap_filter_eq (F G : String → Except PyError (String × List ℚ))
    (l : List String) (c : String)
    (hsame : ∀ a ∈ l,
      (∃ e, F a = Except.error e ∧ G a = Except.error e) ∨
      (∃ b b2, F a = Except.ok b ∧ G a = Except.ok b2 ∧ b.1 = a ∧ b2.1 = a ∧
        (a = c → b = b2))) :
    (exceptMap F l).map (List.filter (fun p => p.1 == c)) =
      (exceptMap G l).map (List.filter (fun p => p.1 == c)) := by
  induction l with
  | nil => rfl
  | cons a as ih =>
    have hih := ih (fun b hb => hsame b (List.mem_cons_of_mem a hb))
    rcases hsame a (List.mem_cons_self a as) with ⟨e, hFe, hGe⟩ |
      ⟨b, b2, hFb, hGb, hb1, hb21, hbc⟩
    · unfold exceptMap
      rw [hFe, hGe]
    · unfold exceptMap
      rw [hFb, hGb]
      cases hE1 : exceptMap F as with
      | error e =>
        cases hE2 : exceptMap G as with
        | error e2 =>
          rw [hE1, hE2] at hih
          simp only [Except.map] at hih ⊢
          exact hih
        | ok bs2 =>
          rw [hE1, hE2] at hih
          simp [Except.map] at hih
      | ok bs =>
        cases hE2 : exceptMap G as with
        | error e2 =>
          rw [hE1, hE2] at hih
          simp [Except.map] at hih
        | ok bs2 =>
          rw [hE1, hE2] at hih
          simp only [Except.map] at hih ⊢
          have hf : List.filter (fun p => p.1 == c) bs =
              List.filter (fun p => p.1 == c) bs2 := Except.ok.inj hih
          by_cases hac : a = c
          · have hbb : b = b2 := hbc hac
            subst hbb
            simp only [List.filter_cons, hf]
          · have hb1c : (b.1 == c) = false := by
              rw [hb1]
              exact beq_false_of_ne hac
            have hb2c : (b2.1 == c) = false := by
              rw [hb21]
              exact beq_false_of_ne hac
            simp only [List.filter_cons, hb1c, hb2c, hf]
            simp

/-- The entries of an output table belonging to column name c. -/
def colProj (c : String) (dt : DayTable) : List (String × List ℚ) :=
  dt.cols.filter (fun p => p.1 == c)

/-- C9: Interpolation is per-column independent: two TMY tables with the
same rows and the same column list that agree on the values of column c
produce, on every group, identical results for column c — changing any
other column's values cannot affect it.  (The interpolation step is a pure
function; its output is fully determined by these inputs.) -/
theorem C9_per_column_independence (tmy tmy2 : TMY) (method : InterpMethod) (m d : ℕ)
    (ts : List Timestamp) (c : String)
    (hcols : tmy.cols = tmy2.cols)
    (hpres : tmy.present = tmy2.present)
    (hval : ∀ k, tmy.val k c = tmy2.val k c) :
    (groupTable method tmy m d ts).map (colProj c) =
      (groupTable method tmy2 m d ts).map (colProj c) := by
  have hsame : ∀ a ∈ tmy2.cols,
      (∃ e, (interpColumn method tmy m (lookupDay m d) a (ts.map hmsFloat)).map
              (fun vs => (a, vs)) = Except.error e ∧
            (interpColumn method tmy2 m (lookupDay m d) a (ts.map hmsFloat)).map
              (fun vs => (a, vs)) = Except.error e) ∨
      (∃ b b2, (interpColumn method tmy m (lookupDay m d) a (ts.map hmsFloat)).map
              (fun vs => (a, vs)) = Except.ok b ∧
            (interpColumn method tmy2 m (lookupDay m d) a (ts.map hmsFloat)).map
              (fun vs => (a, vs)) = Except.ok b2 ∧ b.1 = a ∧ b2.1 = a ∧
            (a = c → b = b2)) := by
    intro a _
    rcases interpColumn_cases method tmy tmy2 m (lookupDay m d) a (ts.map hmsFloat) hpres
      with ⟨e, h1, h2⟩ | ⟨vs, vs2, h1, h2⟩
    · left
      exact ⟨e, by rw [h1]; rfl, by rw [h2]; rfl⟩
    · right
      refine ⟨(a, vs), (a, vs2), by rw [h1]; rfl, by rw [h2]; rfl, rfl, rfl, ?_⟩
      intro hac
      subst hac
      have := interpColumn_val_eq method tmy tmy2 m (lookupDay m d) a (ts.map hmsFloat)
        hpres hval
      rw [h1, h2] at this
      have hv := Except.ok.inj this
      rw [hv]
  have hfl := exceptMap_filter_eq
    (fun a => (interpColumn method tmy m (lookupDay m d) a (ts.map hmsFloat)).map
      (fun vs => (a, vs)))
    (fun a => (interpColumn method tmy2 m (lookupDay m d) a (ts.map hmsFloat)).map
      (fun vs => (a, vs)))
    tmy2.cols c hsame
  unfold groupTable
  rw [hcols]
  cases hE1 : exceptMap
      (fun col => (interpColumn method tmy m (lookupDay m d) col (ts.map hmsFloat)).map
        (fun vs => (col, vs))) tmy2.cols with
  | error e =>
    cases hE2 : exceptMap
        (fun col => (interpColumn method tmy2 m (lookupDay m d) col (ts.map hmsFloat)).map
          (fun vs => (col, vs))) tmy2.cols with
    | error e2 =>
      rw [hE1, hE2] at hfl
      simp only [Except.map] at hfl
      have he : e = e2 := Except.error.inj hfl
      rw [he]
    | ok cvals2 =>
      rw [hE1, hE2] at hfl
      simp [Except.map] at hfl
  | ok cvals =>
    cases hE2 : exceptMap
        (fun col => (interpColumn method tmy2 m (lookupDay m d) col (ts.map hmsFloat)).map
          (fun vs => (col, vs))) tmy2.cols with
    | error e2 =>
      rw [hE1, hE2] at hfl
      simp [Except.map] at hfl
    | ok cvals2 =>
      rw [hE1, hE2] at hfl
      simp only [Except.map] at hfl
      have hc : List.filter (fun p => p.1 == c) cvals =
          List.filter (fun p => p.1 == c) cvals2 := Except.ok.inj hfl
      simp only [Except.map, colProj]
      rw [hc]

/-! ### Column count (C1) -/

theorem climate_ok_numColumns (time_data : List ((ℕ × ℕ × ℕ) × List Timestamp))
    (tmy : TMY) (method : InterpMethod) (out : List ((ℕ × ℕ × ℕ) × DayTable))
    (hok : climate_data_from_pvgis_tmy_dataframe time_data tmy method = Except.ok out) :
    ∀ g ∈ out, g.2.numColumns = 1 + tmy.cols.length := by
  intro g hg
  unfold climate_data_from_pvgis_tmy_dataframe at hok
  obtain ⟨a, _, hae⟩ := exceptMap_ok_mem _ _ _ hok g hg
  cases hE : groupTable method tmy a.1.2.1 a.1.2.2 a.2 with
  | error e => rw [hE] at hae; cases hae
  | ok dt =>
    rw [hE] at hae
    have hga : g = (a.1, dt) := (Except.ok.inj hae).symm
    obtain ⟨_, _, hclen⟩ := groupTable_ok_shape method tmy a.1.2.1 a.1.2.2 a.2 dt hE
    rw [hga]
    unfold DayTable.numColumns
    rw [hclen]

/-- C1 (amended): For every TMY table carrying the module's column list and
every input map on which the call succeeds, every interpolated day table
has column count 1 + 9: one fractional-hour column plus one column per each
of the 9 TMY climate variables. -/
theorem C1_column_count (time_data : List ((ℕ × ℕ × ℕ) × List Timestamp))
    (tmy : TMY) (method : InterpMethod) (out : List ((ℕ × ℕ × ℕ) × DayTable))
    (hcols : tmy.cols = solrad_tmy_columns)
    (hok : climate_data_from_pvgis_tmy_dataframe time_data tmy method = Except.ok out) :
    ∀ g ∈ out, g.2.numColumns = 1 + 9 := by
  intro g hg
  rw [climate_ok_numColumns time_data tmy method out hok g hg, hcols]
  decide

/-- A well-formed presence function: exactly the valid non-leap keys. -/
def wfPresent : ℕ × ℕ × ℕ → Bool := fun k => decide (ValidKey k)

theorem wfPresent_wellFormed (val : ℕ × ℕ × ℕ → String → ℚ) (cols : List String) :
    WellFormed ⟨wfPresent, val, cols⟩ := by
  intro k
  simp [wfPresent]

/-- A concrete well-formed TMY table with the program's 9 columns and all
cell values 0. -/
def tmyZero : TMY := ⟨wfPresent, fun _ _ => 0, solrad_tmy_columns⟩

/-- A single noon-free timestamp list: one timestamp at 06:00:00. -/
def tsJune : List Timestamp := [⟨6, 0, 0⟩]

/-- One target group: June 15 with the single timestamp 06:00:00. -/
def timeDataC1 : List ((ℕ × ℕ × ℕ) × List Timestamp) := [((2023, 6, 15), tsJune)]

/-- C1 counterexample: the module's TMY tables carry 9 climate columns, not
8, and the interpolated day table of a concrete run has column count 10,
not 1 + 8 = 9. -/
theorem C1_counterexample :
    solrad_tmy_columns.length = 9 ∧
    (climate_data_from_pvgis_tmy_dataframe timeDataC1 tmyZero InterpMethod.linear).map
        (List.map (fun g => g.2.numColumns)) = Except.ok [10] ∧
    (10 : ℕ) ≠ 1 + 8 := by
  refine ⟨by decide, ?_, by decide⟩
  rfl

/-! ### The normalized TMY frame (C7) -/

theorem tzRelabel_rawResponse (o : ℤ) (v : ℕ → String → ℚ) :
    tzRelabel o (rawResponse v) =
      (List.range 8760).map (fun u => TMYRow.mk (tripleOfHour (rotHour o u)) (v u)) := by
  unfold tzRelabel rawResponse
  rw [List.map_map]
  rfl

/-- C7: Given the 8760-row hourly UTC-indexed remote response, the
normalized table has exactly 8760 rows, exactly one row for every valid
(month, day, hour) triple of a non-leap year and none for any other triple,
sorted ascending lexicographically by (month, day, hour); the time-zone
conversion step changes neither row count nor values, only each row's
local-time labelling. -/
theorem C7_fetch_normalize (o : ℤ) (v : ℕ → String → ℚ) :
    (get_pvgis_tmy_dataframe o v).length = 8760 ∧
    (∀ m d h : ℕ,
      List.countP (fun r => decide (r.key = (m, d, h))) (get_pvgis_tmy_dataframe o v) =
        if ValidKey (m, d, h) then 1 else 0) ∧
    List.Sorted rowLe (get_pvgis_tmy_dataframe o v) ∧
    (tzRelabel o (rawResponse v)).length = (rawResponse v).length ∧
    (tzRelabel o (rawResponse v)).map TMYRow.vals = (rawResponse v).map RawRow.vals := by
  have hperm : List.Perm (get_pvgis_tmy_dataframe o v) (tzRelabel o (rawResponse v)) :=
    List.perm_insertionSort rowLe _
  refine ⟨?_, ?_, ?_, ?_, ?_⟩
  · rw [hperm.length_eq, tzRelabel_rawResponse]
    simp
  · intro m d h
    rw [hperm.countP_eq, tzRelabel_rawResponse, List.countP_map]
    by_cases hvk : ValidKey (m, d, h)
    · rw [if_pos hvk]
      have hlt : hourOfTriple (m, d, h) < 8760 := hourOfTriple_lt m d h hvk
      have hcong : ∀ u ∈ List.range 8760,
          (((fun r => decide (r.key = (m, d, h))) ∘
            (fun u => TMYRow.mk (tripleOfHour (rotHour o u)) (v u))) u = true ↔
           (fun u => decide (u = rotHour (-o) (hourOfTriple (m, d, h)))) u = true) := by
        intro u hu
        have hult : u < 8760 := List.mem_range.mp hu
        simp only [Function.comp_apply, decide_eq_true_eq]
        constructor
        · intro heq
          have h2 : hourOfTriple (tripleOfHour (rotHour o u)) = rotHour o u :=
            hourOfTriple_tripleOfHour (rotHour o u) (rotHour_lt o u)
          rw [heq] at h2
          rw [h2]
          exact (rotHour_rotHour o u hult).symm
        · intro heq
          have h3 : rotHour o u = hourOfTriple (m, d, h) := by
            rw [heq]
            have h4 := rotHour_rotHour (-o) (hourOfTriple (m, d, h)) hlt
            rw [neg_neg] at h4
            exact h4
          rw [h3]
          exact tripleOfHour_hourOfTriple m d h hvk
      rw [List.countP_congr hcong]
      exact countP_range_eq_one (rotHour (-o) (hourOfTriple (m, d, h))) 8760 (rotHour_lt _ _)
    · rw [if_neg hvk]
      apply List.countP_eq_zero.mpr
      intro u hu
      have hult : u < 8760 := List.mem_range.mp hu
      simp only [Function.comp_apply, decide_eq_true_eq]
      intro heq
      exact hvk (heq ▸ validKey_tripleOfHour (rotHour o u) (rotHour_lt o u))
  · exact List.sorted_insertionSort rowLe _
  · unfold tzRelabel
    simp
  · unfold tzRelabel
    rw [List.map_map]
    rfl

/-! ### Concrete witnesses -/

/-- The output table of the concrete C1 run. -/
def dtC1 : DayTable := ⟨tsJune, tsJune.map hmsFloat,
  solrad_tmy_columns.map (fun col =>
    (col, (tsJune.map hmsFloat).map
      (evalInterp InterpMethod.linear (wfNodes tmyZero 6 (lookupDay 6 15) col))))⟩

/-- The output map of the concrete C1 run. -/
def outC1 : List ((ℕ × ℕ × ℕ) × DayTable) := [((2023, 6, 15), dtC1)]

theorem climateC1_eval :
    climate_data_from_pvgis_tmy_dataframe timeDataC1 tmyZero InterpMethod.linear =
      Except.ok outC1 := by
  show climate_data_from_pvgis_tmy_dataframe [((2023, 6, 15), tsJune)] tmyZero
      InterpMethod.linear = Except.ok outC1
  rw [climate_singleton (2023, 6, 15) tsJune tmyZero InterpMethod.linear]
  show (groupTable InterpMethod.linear tmyZero 6 15 tsJune).map
      (fun dt => [((2023, 6, 15), dt)]) = Except.ok outC1
  rw [groupTable_wf InterpMethod.linear tmyZero 6 15 tsJune
    (wfPresent_wellFormed _ _) (Or.inl (by decide))]
  rfl

/-- Witness for the amended C1 on a concrete run. -/
theorem C1_column_count_witness :
    tmyZero.cols = solrad_tmy_columns ∧
    climate_data_from_pvgis_tmy_dataframe timeDataC1 tmyZero InterpMethod.linear =
      Except.ok outC1 ∧
    ((2023, 6, 15), dtC1).2.numColumns = 1 + 9 :=
  ⟨rfl, climateC1_eval,
    C1_column_count timeDataC1 tmyZero InterpMethod.linear outC1 rfl climateC1_eval
      ((2023, 6, 15), dtC1) (List.mem_singleton.mpr rfl)⟩

/-- The timestamp 14:00:00, exactly on an hour mark. -/
def tsC3 : List Timestamp := [⟨14, 0, 0⟩]

/-- Witness for C3 at 14:00:00 on June 15 with the cubic method. -/
theorem C3_witness :
    WellFormed tmyZero ∧ ValidTargetDate 6 15 ∧
    (∃ dt, groupTable InterpMethod.cubic tmyZero 6 15 tsC3 = Except.ok dt ∧
      (dt.cols.getD 0 ("", [])).1 = tmyZero.cols.getD 0 "" ∧
      ((dt.cols.getD 0 ("", [])).2).getD 0 0 =
        tmyZero.val (6, lookupDay 6 15, (tsC3.get ⟨0, by decide⟩).hour)
          (tmyZero.cols.getD 0 "")) :=
  ⟨wfPresent_wellFormed _ _, by decide,
    C3_exact_at_hour_marks tmyZero InterpMethod.cubic 6 15 tsC3 0 0
      (wfPresent_wellFormed _ _) (by decide) (by decide) (by decide) (by decide) rfl rfl⟩

/-- Witness for C4 with the quadratic method on a shared time-of-day
sequence. -/
theorem C4_witness :
    (tsJune.map timeOfDay = tsJune.map timeOfDay) ∧
    (climate_data_from_pvgis_tmy_dataframe [((2024, 2, 29), tsJune)] tmyZero
        InterpMethod.quadratic).map (List.map (fun g => tableVals g.2)) =
      (climate_data_from_pvgis_tmy_dataframe [((2024, 2, 28), tsJune)] tmyZero
        InterpMethod.quadratic).map (List.map (fun g => tableVals g.2)) ∧
    lookupDay 3 15 = 15 :=
  ⟨rfl,
    (C4_leap_day_substitution tmyZero InterpMethod.quadratic 2024 tsJune tsJune rfl).1,
    (C4_leap_day_substitution tmyZero InterpMethod.quadratic 2024 tsJune tsJune rfl).2
      3 15 (by decide)⟩

/-- Witness for C5 on a concrete well-formed table. -/
theorem C5_witness :
    WellFormed tmyZero ∧
    closingNode tmyZero 12 (lookupDay 12 31) "T2m" = some (tmyZero.val (1, 1, 0) "T2m") ∧
    ∃ dt, groupTable InterpMethod.linear tmyZero 12 31 tsJune = Except.ok dt :=
  ⟨wfPresent_wellFormed _ _,
    (C5_december_wraparound tmyZero InterpMethod.linear tsJune "T2m"
      (wfPresent_wellFormed _ _)).1,
    (C5_december_wraparound tmyZero InterpMethod.linear tsJune "T2m"
      (wfPresent_wellFormed _ _)).2⟩

/-- A TMY table with no rows at all and a single column. -/
def tmyEmpty : TMY := ⟨fun _ => false, fun _ _ => 0, ["T2m"]⟩

/-- One target group for the empty table. -/
def timeDataC6 : List ((ℕ × ℕ × ℕ) × List Timestamp) := [((2023, 6, 15), tsJune)]

/-- Witness for C6: with no row present at all, the whole call errors. -/
theorem C6_witness :
    ((2023, 6, 15), tsJune) ∈ timeDataC6 ∧ "T2m" ∈ tmyEmpty.cols ∧
    closingNode tmyEmpty (2023, 6, 15).2.1
      (lookupDay (2023, 6, 15).2.1 (2023, 6, 15).2.2) "T2m" = none ∧
    ∃ e, climate_data_from_pvgis_tmy_dataframe timeDataC6 tmyEmpty InterpMethod.linear =
      Except.error e :=
  ⟨List.mem_singleton.mpr rfl, List.mem_singleton.mpr rfl, rfl,
    C6_closing_failure_aborts timeDataC6 tmyEmpty InterpMethod.linear (2023, 6, 15) tsJune
      "T2m" (List.mem_singleton.mpr rfl) (List.mem_singleton.mpr rfl) rfl⟩

/-- A concrete well-formed single-column table. -/
def tmyOne : TMY := ⟨wfPresent, fun _ _ => 0, ["T2m"]⟩

/-- One target group with the timestamp 06:30:00. -/
def tsC8 : List Timestamp := [⟨6, 30, 0⟩]

/-- The input map of the concrete C8 run. -/
def timeDataC8 : List ((ℕ × ℕ × ℕ) × List Timestamp) := [((2023, 6, 15), tsC8)]

/-- The output table of the concrete C8 run. -/
def dtC8 : DayTable := ⟨tsC8, tsC8.map hmsFloat,
  [("T2m", (tsC8.map hmsFloat).map
    (evalInterp InterpMethod.linear (wfNodes tmyOne 6 (lookupDay 6 15) "T2m")))]⟩

/-- The output map of the concrete C8 run. -/
def outC8 : List ((ℕ × ℕ × ℕ) × DayTable) := [((2023, 6, 15), dtC8)]

theorem climateC8_eval :
    climate_data_from_pvgis_tmy_dataframe timeDataC8 tmyOne InterpMethod.linear =
      Except.ok outC8 := by
  show climate_data_from_pvgis_tmy_dataframe [((2023, 6, 15), tsC8)] tmyOne
      InterpMethod.linear = Except.ok outC8
  rw [climate_singleton (2023, 6, 15) tsC8 tmyOne InterpMethod.linear]
  show (groupTable InterpMethod.linear tmyOne 6 15 tsC8).map
      (fun dt => [((2023, 6, 15), dt)]) = Except.ok outC8
  rw [groupTable_wf InterpMethod.linear tmyOne 6 15 tsC8
    (wfPresent_wellFormed _ _) (Or.inl (by decide))]
  rfl

/-- Witness for C8 on a concrete run. -/
theorem C8_witness :
    climate_data_from_pvgis_tmy_dataframe timeDataC8 tmyOne InterpMethod.linear =
      Except.ok outC8 ∧
    (∀ g ∈ timeDataC8, ∀ t ∈ g.2, t.Valid) ∧
    outC8.map Prod.fst = timeDataC8.map Prod.fst ∧
    outC8.length = timeDataC8.length :=
  ⟨climateC8_eval, by decide,
    (C8_output_shape timeDataC8 tmyOne InterpMethod.linear outC8 climateC8_eval
      (by decide)).1,
    (C8_output_shape timeDataC8 tmyOne InterpMethod.linear outC8 climateC8_eval
      (by decide)).2.1⟩

/-- Two tables equal except for the values of column "B". -/
def tmyA : TMY := ⟨wfPresent, fun _ _ => 0, ["A", "B"]⟩

/-- Same rows and columns as `tmyA`, different values in column "B". -/
def tmyB : TMY := ⟨wfPresent, fun _ c => if c = "B" then 5 else 0, ["A", "B"]⟩

/-- Witness for C9: changing column "B" leaves column "A" untouched. -/
theorem C9_witness :
    tmyA.cols = tmyB.cols ∧ tmyA.present = tmyB.present ∧
    (groupTable InterpMethod.linear tmyA 6 15 tsJune).map (colProj "A") =
      (groupTable InterpMethod.linear tmyB 6 15 tsJune).map (colProj "A") :=
  ⟨rfl, rfl,
    C9_per_column_independence tmyA tmyB InterpMethod.linear 6 15 tsJune "A" rfl rfl
      (fun k => by simp [tmyA, tmyB])⟩

/-- Witness for C10 on a concrete table containing (1, 1, 0). -/
theorem C10_witness :
    tmyOne.present (1, 1, 0) = true ∧
    (closingNode tmyOne 6 15 "T2m").isSome = true ∧
    climate_data_from_pvgis_tmy_dataframe timeDataC8 tmyOne InterpMethod.linear ≠
      Except.error PyError.missingClosingNode :=
  ⟨by decide, (C10_missing_closing_unreachable tmyOne (by decide)).1 6 15 "T2m",
    (C10_missing_closing_unreachable tmyOne (by decide)).2 timeDataC8 InterpMethod.linear⟩
